import Mathlib

/-!
Verification of the teleport RPC core (message plane and peer lifecycle)
against its natural-language specification.  The Go sources
`socket/message.go` and `peer.go` are shallowly embedded below: pure
functions become Lean functions, mutation becomes explicit state passing,
machine integers become `Nat`/`Int` with explicit bounds where overflow
matters, and fallible operations return `Except`/`Option`.
-/

namespace Teleport

/-! ## Byte-level scalar bounds -/

/-- `math.MaxUint32`, the largest unsigned 32-bit value. -/
def maxUint32 : Nat := 4294967295

/-! ## Message size limit (socket/message.go, lines 493-519)

The Go package keeps a process-global `messageSizeLimit uint32`
initialised to `math.MaxUint32`.  We model the global as an explicit
parameter threaded through the functions that read it, and the setter as
a function from the argument to the new value of the global. -/

/-- Initial value of the global `messageSizeLimit` variable:
`var messageSizeLimit uint32 = math.MaxUint32`. -/
def initialMessageSizeLimit : Nat := maxUint32

/-- Embeds `MessageSizeLimit()`: returns the current global limit. -/
def MessageSizeLimit (messageSizeLimit : Nat) : Nat := messageSizeLimit

/-- Embeds `SetMessageSizeLimit(maxMessageSize uint32)`: the new value of
the global limit.  The Go code tests `maxMessageSize <= 0`, which for an
unsigned argument holds exactly at 0. -/
def SetMessageSizeLimit (maxMessageSize : Nat) : Nat :=
  if maxMessageSize ≤ 0 then maxUint32 else maxMessageSize

/-- Errors surfaced by the embedded message-plane operations. -/
inductive Err where
  /-- `ErrExceedMessageSizeLimit` from socket/message.go. -/
  | exceedMessageSizeLimit
  /-- the not-found error returned by `codec.Get` on an unregistered id. -/
  | unknownCodec
  /-- an error produced by a codec's own Marshal/Unmarshal. -/
  | codecFail (s : String)
  /-- run-time panic (nil-pointer dereference). -/
  | panicErr
  deriving DecidableEq

/-- Embeds `checkMessageSize(messageSize uint32) error`. -/
def checkMessageSize (messageSizeLimit messageSize : Nat) : Option Err :=
  if messageSize > messageSizeLimit then some Err.exceedMessageSizeLimit
  else none

/-! ## The message record (socket/message.go, lines 121-160)

The body field is a Go `interface{}` whose dynamically relevant shapes in
`MarshalBody`/`UnmarshalBody` are: nil, `[]byte`, `*[]byte`, and any
other (codec-known) user value.  We keep the user-value type abstract as
a type parameter `α`. -/

/-- The dynamically relevant shapes of the `body interface{}` field. -/
inductive BodyVal (α : Type) where
  /-- nil interface value. -/
  | none
  /-- a `[]byte` value. -/
  | bytes (b : List Nat)
  /-- a `*[]byte` value; `Option.none` is the nil pointer. -/
  | ptrBytes (b : Option (List Nat))
  /-- any other user value, of the abstract type `α`. -/
  | value (v : α)

/-- Modelled from the spec: `codec.NilCodecID`, the body-codec id meaning
"no codec" ("bodyCodec (unsigned byte id; 0 means no codec)").  The
`codec` package itself is not among the excerpted sources. -/
def NilCodecID : Nat := 0

/-- Modelled from the spec: `utils.Args`, the message metadata, is "an
ordered multimap of string→string keys"; its `Reset` empties it.  The
`utils` package is not among the excerpted sources. -/
abbrev Meta : Type := List (String × String)

/-- The required header fields of a message, passed to `NewBodyFunc`
(which takes the `Header` interface in Go). -/
structure HeaderRec where
  seq : Int
  mtype : Nat
  serviceMethod : String
  meta : Meta

/-- Embeds the `message` struct of socket/message.go.  `xferPipe` is the
list of filter ids (the `xfer` package is not among the excerpted
sources; per the spec it is "an ordered sequence of up to 255 filter
ids" whose `Reset` empties it).  `ctx` is the handling context, opaque
at this layer, `Option.none` when unset. -/
structure Msg (α : Type) where
  seq : Int
  mtype : Nat
  serviceMethod : String
  meta : Meta
  bodyCodec : Nat
  body : BodyVal α
  newBodyFunc : Option (HeaderRec → BodyVal α)
  xferPipe : List Nat
  size : Nat
  ctx : Option Nat

/-- The header view of a message, as handed to `newBodyFunc`. -/
def Msg.header (m : Msg α) : HeaderRec :=
  { seq := m.seq, mtype := m.mtype, serviceMethod := m.serviceMethod
    meta := m.meta }

/-- Embeds `(m *message) SetSize(size uint32) error`: returns the
message after the call together with the returned error.  On error the
struct is untouched; otherwise `m.size = size`. -/
def Msg.SetSize (messageSizeLimit : Nat) (m : Msg α) (size : Nat) :
    Msg α × Option Err :=
  match checkMessageSize messageSizeLimit size with
  | some err => (m, some err)
  | none => ({ m with size := size }, none)

/-! ## Reset and message settings (socket/message.go, lines 199-222) -/

/-- `MessageSetting`, a mutator closure over the message. -/
def MessageSetting (α : Type) : Type := Msg α → Msg α

/-- Embeds `(m *message) doSetting(settings ...MessageSetting)`: applies
each setting in order, skipping nil ones (`Option.none`). -/
def Msg.doSetting (m : Msg α) (settings : List (Option (MessageSetting α))) :
    Msg α :=
  settings.foldl (fun m fn => match fn with
    | some fn => fn m
    | none => m) m

/-- Embeds `(m *message) Reset(settings ...MessageSetting)`: clears every
field, then applies the settings. -/
def Msg.Reset (m : Msg α) (settings : List (Option (MessageSetting α))) :
    Msg α :=
  Msg.doSetting
    { m with
      body := BodyVal.none
      meta := ([] : List (String × String))
      xferPipe := []
      newBodyFunc := none
      seq := 0
      mtype := 0
      serviceMethod := ""
      size := 0
      ctx := none
      bodyCodec := NilCodecID }
    settings

/-! ## Body codec registry and body marshalling
(socket/message.go, lines 297-350)

The `codec` package is not among the excerpted sources; per the spec a
codec exposes id, name, marshal and unmarshal, and lookup by unknown id
fails with `unknown-codec`.  A codec's own failures are opaque errors
(modelled as strings), distinct from the registry-miss error. -/

/-- Modelled from the spec: a body codec ("a codec exposes: id, name,
marshal(value)→bytes, unmarshal(bytes, target)").  Marshalling acts on
the dynamic body value; its own failures are opaque strings. -/
structure Codec (α : Type) where
  id : Nat
  name : String
  marshal : BodyVal α → Except String (List Nat)
  unmarshal : List Nat → BodyVal α → Except String (BodyVal α)

/-- Modelled from the spec: the process-wide codec registry keyed by
1-byte id; `codec.Get` on an unregistered id fails. -/
def Registry (α : Type) : Type := Nat → Option (Codec α)

/-- Embeds `(m *message) MarshalBody() ([]byte, error)`.  The Go type
switch runs, in dynamic-type order: nil → empty bytes; nil `*[]byte` →
empty bytes; non-nil `*[]byte` → the pointed bytes; `[]byte` → the bytes
verbatim; any other value → look up `m.bodyCodec` and marshal. -/
def Msg.MarshalBody (reg : Registry α) (m : Msg α) :
    Except Err (List Nat) :=
  match m.body with
  | BodyVal.none => Except.ok []
  | BodyVal.ptrBytes Option.none => Except.ok []
  | BodyVal.ptrBytes (some b) => Except.ok b
  | BodyVal.bytes b => Except.ok b
  | BodyVal.value v =>
    match reg m.bodyCodec with
    | Option.none => Except.error Err.unknownCodec
    | some c =>
      match c.marshal (BodyVal.value v) with
      | Except.ok bs => Except.ok bs
      | Except.error s => Except.error (Err.codecFail s)

/-- Embeds `(m *message) UnmarshalBody(bodyBytes []byte) error`: first,
if the body is nil and `newBodyFunc` is set, create the body from the
header; if the input is empty, succeed at once; otherwise switch on the
body: nil → succeed unchanged; `*[]byte` → copy the input into the
pointed slice (a nil pointer dereference panics in Go); any other value
(including `[]byte`, which the Go type switch sends to `default`) →
look up `m.bodyCodec` and unmarshal into the body. -/
def Msg.UnmarshalBody (reg : Registry α) (m : Msg α) (bodyBytes : List Nat) :
    Except Err (Msg α) :=
  let m :=
    match m.body, m.newBodyFunc with
    | BodyVal.none, some f => { m with body := f m.header }
    | _, _ => m
  if bodyBytes.length = 0 then Except.ok m
  else
    match m.body with
    | BodyVal.none => Except.ok m
    | BodyVal.ptrBytes Option.none => Except.error Err.panicErr
    | BodyVal.ptrBytes (some _) =>
      Except.ok { m with body := BodyVal.ptrBytes (some bodyBytes) }
    | b =>
      match reg m.bodyCodec with
      | Option.none => Except.error Err.unknownCodec
      | some c =>
        match c.unmarshal bodyBytes b with
        | Except.ok b2 => Except.ok { m with body := b2 }
        | Except.error s => Except.error (Err.codecFail s)

/-! ## Accept-loop backoff (peer.go, lines 386-415)

`serveListener` keeps `tempDelay time.Duration` (nanoseconds).  On a
temporary accept error: if zero it becomes 5 ms, otherwise it doubles;
then it is capped at 1 s and slept.  On a successful accept it is reset
to zero.  Durations are modelled in nanoseconds as `Nat`. -/

/-- 5 ms in nanoseconds, the initial backoff. -/
def initTempDelay : Nat := 5000000

/-- 1 s in nanoseconds, the backoff cap (`max` in the source). -/
def maxTempDelay : Nat := 1000000000

/-- The update of `tempDelay` on one temporary accept error: set to 5 ms
if zero, else double; then cap at 1 s. -/
def nextTempDelay (tempDelay : Nat) : Nat :=
  let d := if tempDelay = 0 then initTempDelay else tempDelay * 2
  if d > maxTempDelay then maxTempDelay else d

/-- Outcome of one `lis.Accept()` call, as the loop discriminates it. -/
inductive AcceptOutcome where
  /-- a connection was accepted (`tempDelay = 0` follows). -/
  | success
  /-- a temporary `net.Error` (the loop backs off and retries). -/
  | tempError
  deriving DecidableEq

/-- The transition of `tempDelay` across one loop iteration. -/
def acceptLoopDelay (tempDelay : Nat) : AcceptOutcome → Nat
  | AcceptOutcome.success => 0
  | AcceptOutcome.tempError => nextTempDelay tempDelay

/-- The delay slept on the k-th consecutive temporary accept error
(1-indexed; `tempDelayAfter 0 = 0` is the reset state). -/
def tempDelayAfter : Nat → Nat
  | 0 => 0
  | k + 1 => nextTempDelay (tempDelayAfter k)

/-- Total delay slept over k consecutive temporary accept errors. -/
def totalAcceptDelay : Nat → Nat
  | 0 => 0
  | k + 1 => totalAcceptDelay k + tempDelayAfter (k + 1)

/-! ## Client redial (peer.go, lines 238-313)

`redialTimes` is a signed 32-bit counter.  `next()` returns false when
the counter is zero, otherwise true, decrementing only positive values
(so a negative counter yields true forever).  `newSessionForClient`
dials once; on failure it redials in a `for redialTimes.next()` loop,
sleeping `redialInterval` before each retry, and stopping early on
success.  If the last dial error is still non-nil it returns the
`dial-failed` Rerror carrying that error's text as reason.

Connections are modelled by their local-address string; a dial attempt
is a function from the attempt index to its outcome, so that a stream of
failures can name each error.  The redial loop may diverge in Go when
the counter is negative and every dial fails, so the embedding takes
explicit fuel; exhausted fuel returns the state reached so far. -/

/-- Embeds `(r *redialTimes) next() bool`: the returned Bool and the
updated counter. -/
def redialNext (r : Int) : Bool × Int :=
  if r = 0 then (false, r)
  else if r > 0 then (true, r - 1)
  else (true, r)

/-- The results of `k` successive `next()` calls starting from counter
`r`. -/
def nextCalls : Int → Nat → List Bool
  | _, 0 => []
  | r, k + 1 =>
    match redialNext r with
    | (b, r2) => b :: nextCalls r2 k

/-- The `dial-failed` Rerror built by `newSessionForClient`, with the
last dial error's text as reason. -/
inductive Rerr where
  | dialFailed (reason : String)
  deriving DecidableEq

/-- The redial loop of `newSessionForClient`: `i` is the index of the
next dial attempt, `last` the outcome of the previous attempt.  Returns
the total number of attempts made (including those before entry) and the
final outcome. -/
def redialLoop (fuel : Nat) (r : Int) (dial : Nat → Except String String)
    (i : Nat) (last : Except String String) : Nat × Except String String :=
  match fuel with
  | 0 => (i, last)
  | fuel + 1 =>
    match redialNext r with
    | (false, _) => (i, last)
    | (true, r2) =>
      match dial i with
      | Except.ok c => (i + 1, Except.ok c)
      | Except.error e => redialLoop fuel r2 dial (i + 1) (Except.error e)

/-- Embeds the dial phase of `newSessionForClient`: the initial dial,
the redial loop on failure, and the `dial-failed` error when the budget
is exhausted.  Returns the number of dial attempts made and either the
established connection or the Rerror. -/
def newSessionForClient (fuel : Nat) (redialTimes : Int)
    (dial : Nat → Except String String) : Nat × Except Rerr String :=
  match dial 0 with
  | Except.ok c => (1, Except.ok c)
  | Except.error e =>
    match redialLoop fuel redialTimes dial 1 (Except.error e) with
    | (i, Except.ok c) => (i, Except.ok c)
    | (i, Except.error e2) => (i, Except.error (Rerr.dialFailed e2))

/-! ## Session renewal after redial (peer.go, lines 315-343)

`renewSessionForClient` dials; on success it records the old local
address and the old session id, closes the old connection, resets the
socket onto the new connection (after which the local address is the new
connection's), and re-derives the id: the new local address when the old
id still equalled the old local address, otherwise the old id.  A
client session is modelled by its local address and id; a successful
dial is modelled by the new connection's local-address string. -/

/-- The session fields relevant to id renewal. -/
structure ClientSess where
  localAddr : String
  id : String
  deriving DecidableEq

/-- Embeds `(p *peer) renewSessionForClient` restricted to its effect on
the session's local address and id. -/
def renewSessionForClient (sess : ClientSess)
    (dialResult : Except String String) : Except String ClientSess :=
  match dialResult with
  | Except.error e => Except.error e
  | Except.ok newLocalAddr =>
    let oldIP := sess.localAddr
    let oldID := sess.id
    let sess := { sess with localAddr := newLocalAddr }
    if oldIP = oldID then Except.ok { sess with id := newLocalAddr }
    else Except.ok { sess with id := oldID }

/-! ## Accept task: TLS handshake before session admission
(peer.go, lines 416-438)

Each accepted connection is handled by a task that, for a TLS
connection, first runs the handshake and returns on failure; only then
is the session created, passed to the post-accept plugins (whose
rejection closes it), registered in the session hub, and served.  The
task is modelled by the sequence of observable events it performs. -/

/-- Observable events of the per-connection accept task. -/
inductive AcceptEv where
  /-- the TLS handshake returned, with the given success flag. -/
  | handshake (ok : Bool)
  /-- `newSession` created the session object. -/
  | newSess
  /-- `sess.Close()` after a post-accept plugin rejection. -/
  | sessClose
  /-- `p.sessHub.Set(sess)` registered the session. -/
  | register
  /-- `sess.startReadAndHandle()` began serving. -/
  | startRead
  deriving DecidableEq

/-- Embeds the accept task spawned for one accepted connection:
`isTLS` — the connection is a `*tls.Conn`; `handshakeOk` — the handshake
succeeds; `postAcceptOk` — the post-accept plugins accept. -/
def acceptConnTask (isTLS handshakeOk postAcceptOk : Bool) : List AcceptEv :=
  if isTLS then
    if handshakeOk then
      AcceptEv.handshake true ::
        (AcceptEv.newSess ::
          if postAcceptOk then [AcceptEv.register, AcceptEv.startRead]
          else [AcceptEv.sessClose])
    else [AcceptEv.handshake false]
  else
    AcceptEv.newSess ::
      if postAcceptOk then [AcceptEv.register, AcceptEv.startRead]
      else [AcceptEv.sessClose]

/-! ## Peer close (peer.go, lines 453-490)

`Close` signals shutdown, closes every non-quic listener discarding the
returned error, closes every session collecting each close error through
a channel and merging them, then closes the quic listeners merging their
errors too.  The aggregate multi-error is modelled as the list of its
component error texts (empty = nil); `errors.Merge err e` appends `e`
when non-nil. -/

/-- A listener as `Close` discriminates it: whether it is a
`*quic.Listener`, and the error its `Close()` returns (none = nil). -/
structure Lis where
  isQuic : Bool
  closeErr : Option String
  deriving DecidableEq

/-- `errors.Merge` on the list model: append the error when non-nil. -/
def mergeErr (acc : List String) : Option String → List String
  | Option.none => acc
  | some e => acc ++ [e]

/-- Embeds `(p *peer) Close() error`: the aggregate error, given the
peer's listeners and the close error of each session.  Non-quic
listeners are closed first with their errors discarded; session errors
are merged; quic listener errors are merged last. -/
def peerClose (listeners : List Lis) (sessCloseErrs : List (Option String)) :
    List String :=
  let _nonQuicClosed := listeners.map fun l =>
    if l.isQuic then Option.none else l.closeErr
  let errAfterSessions := sessCloseErrs.foldl mergeErr []
  (listeners.filter fun l => l.isQuic).foldl
    (fun acc l => mergeErr acc l.closeErr) errAfterSessions

/-! ## Sample values used by witness instantiations -/

/-- A concrete message with every field cleared, over `α := Nat`. -/
def sampleMsg : Msg Nat :=
  { seq := 0, mtype := 0, serviceMethod := "", meta := []
    bodyCodec := 0, body := BodyVal.none, newBodyFunc := none
    xferPipe := [], size := 0, ctx := none }

/-- A concrete codec over `α := Nat`. -/
def sampleCodec : Codec Nat :=
  { id := 1, name := "sample"
    marshal := fun _ => Except.ok [7]
    unmarshal := fun _ b => Except.ok b }

/-- A concrete registry holding `sampleCodec` at id 1 only. -/
def sampleReg : Registry Nat :=
  fun i => if i = 1 then some sampleCodec else none

/-! ## Claim theorems -/

/-- C1: for every size and every current global limit, `SetSize` returns
the exceed-message-size-limit error iff the size is strictly greater
than the limit; on error the stored size (indeed the whole message) is
unchanged, and otherwise the stored size becomes exactly the argument. -/
theorem setSize_limit_spec {α : Type} (limit size : Nat) (m : Msg α) :
    ((m.SetSize limit size).2 = some Err.exceedMessageSizeLimit ↔
      limit < size)
    ∧ (limit < size → (m.SetSize limit size).1 = m)
    ∧ (size ≤ limit → (m.SetSize limit size).1 = { m with size := size }) := by
  unfold Msg.SetSize checkMessageSize
  by_cases h : limit < size
  · simp [h, Nat.not_le.mpr h]
  · simp [h, Nat.not_lt.mp h, Nat.lt_irrefl]

/-- Witness for C1 at limit 1024, size 1025 (error, message untouched)
and size 1024 (stored size set). -/
theorem setSize_limit_spec_witness :
    (sampleMsg.SetSize 1024 1025).2 = some Err.exceedMessageSizeLimit
    ∧ (sampleMsg.SetSize 1024 1025).1 = sampleMsg
    ∧ (sampleMsg.SetSize 1024 1024).1 = { sampleMsg with size := 1024 } :=
  ⟨(setSize_limit_spec 1024 1025 sampleMsg).1.mpr (by decide),
   (setSize_limit_spec 1024 1025 sampleMsg).2.1 (by decide),
   (setSize_limit_spec 1024 1024 sampleMsg).2.2 (by decide)⟩

/-- C2: the global message-size limit starts at the maximum unsigned
32-bit value; `SetMessageSizeLimit` resets it to that maximum on an
argument ≤ 0 and otherwise stores the argument exactly, as observed by
`MessageSizeLimit`. -/
theorem setMessageSizeLimit_spec :
    initialMessageSizeLimit = 4294967295
    ∧ (∀ l : Nat, MessageSizeLimit l = l)
    ∧ (∀ a : Nat, a ≤ 0 → SetMessageSizeLimit a = 4294967295)
    ∧ (∀ a : Nat, 0 < a → SetMessageSizeLimit a = a) := by
  refine ⟨rfl, fun l => rfl, fun a ha => ?_, fun a ha => ?_⟩
  · unfold SetMessageSizeLimit maxUint32
    simp [ha]
  · unfold SetMessageSizeLimit
    simp [Nat.not_le.mpr ha]

/-- Witness for C2 at arguments 0 and 7. -/
theorem setMessageSizeLimit_spec_witness :
    SetMessageSizeLimit 0 = 4294967295 ∧ SetMessageSizeLimit 7 = 7 :=
  ⟨setMessageSizeLimit_spec.2.2.1 0 (by decide),
   setMessageSizeLimit_spec.2.2.2 7 (by decide)⟩

/-- C3: `Reset` with no settings clears every field — seq 0, mtype 0,
service method empty, meta empty, body nil, newBodyFunc nil, pipe empty,
size 0, context unset, bodyCodec the nil-codec id — and with settings it
applies them, in order, after this clearing. -/
theorem reset_spec {α : Type} (m : Msg α)
    (settings : List (Option (MessageSetting α))) :
    (m.Reset []).seq = 0
    ∧ (m.Reset []).mtype = 0
    ∧ (m.Reset []).serviceMethod = ""
    ∧ (m.Reset []).meta = []
    ∧ (m.Reset []).body = BodyVal.none
    ∧ (m.Reset []).newBodyFunc = none
    ∧ (m.Reset []).xferPipe = []
    ∧ (m.Reset []).size = 0
    ∧ (m.Reset []).ctx = none
    ∧ (m.Reset []).bodyCodec = NilCodecID
    ∧ m.Reset settings = Msg.doSetting (m.Reset []) settings :=
  ⟨rfl, rfl, rfl, rfl, rfl, rfl, rfl, rfl, rfl, rfl, rfl⟩

/-- C8: `MarshalBody` is a case analysis on the body — nil body or nil
byte-buffer pointer yields empty bytes with no error; a raw byte buffer
(`[]byte` or non-nil `*[]byte`) is returned verbatim, independently of
the registry; for any other value the codec id is looked up, failing
with unknown-codec exactly when it is unregistered and otherwise
returning the codec's marshalling of the value. -/
theorem marshalBody_spec {α : Type} (reg reg2 : Registry α) (m : Msg α) :
    (m.body = BodyVal.none → m.MarshalBody reg = Except.ok [])
    ∧ (m.body = BodyVal.ptrBytes Option.none →
        m.MarshalBody reg = Except.ok [])
    ∧ (∀ b, m.body = BodyVal.bytes b →
        m.MarshalBody reg = Except.ok b
        ∧ m.MarshalBody reg = m.MarshalBody reg2)
    ∧ (∀ b, m.body = BodyVal.ptrBytes (some b) →
        m.MarshalBody reg = Except.ok b
        ∧ m.MarshalBody reg = m.MarshalBody reg2)
    ∧ (∀ v, m.body = BodyVal.value v →
        (m.MarshalBody reg = Except.error Err.unknownCodec ↔
          reg m.bodyCodec = Option.none)
        ∧ (∀ c, reg m.bodyCodec = some c →
            m.MarshalBody reg =
              match c.marshal (BodyVal.value v) with
              | Except.ok bs => Except.ok bs
              | Except.error s => Except.error (Err.codecFail s))) := by
  refine ⟨fun h => ?_, fun h => ?_, fun b h => ?_, fun b h => ?_,
    fun v h => ⟨?_, fun c hc => ?_⟩⟩
  · simp [Msg.MarshalBody, h]
  · simp [Msg.MarshalBody, h]
  · constructor <;> simp [Msg.MarshalBody, h]
  · constructor <;> simp [Msg.MarshalBody, h]
  · constructor
    · intro hm
      cases hreg : reg m.bodyCodec with
      | none => rfl
      | some c =>
        exfalso
        simp only [Msg.MarshalBody, h, hreg] at hm
        cases hmar : c.marshal (BodyVal.value v) <;> simp [hmar] at hm
    · intro hreg
      simp [Msg.MarshalBody, h, hreg]
  · simp only [Msg.MarshalBody, h, hc]

/-- Witness for C8: an unregistered codec id (2) on a user-value body
fails with unknown-codec; a registered id (1) produces the codec's
marshalling; a raw byte body is returned verbatim. -/
theorem marshalBody_spec_witness :
    ({ sampleMsg with body := BodyVal.value 5, bodyCodec := 2 } :
        Msg Nat).MarshalBody sampleReg = Except.error Err.unknownCodec
    ∧ ({ sampleMsg with body := BodyVal.value 5, bodyCodec := 1 } :
        Msg Nat).MarshalBody sampleReg = Except.ok [7]
    ∧ ({ sampleMsg with body := BodyVal.bytes [9, 9] } :
        Msg Nat).MarshalBody sampleReg = Except.ok [9, 9] :=
  ⟨((marshalBody_spec sampleReg sampleReg _).2.2.2.2 5 rfl).1.mpr rfl,
   ((marshalBody_spec sampleReg sampleReg _).2.2.2.2 5 rfl).2 sampleCodec rfl,
   ((marshalBody_spec sampleReg sampleReg _).2.2.1 [9, 9] rfl).1⟩

/-- C10: `UnmarshalBody` on an empty byte string succeeds without
consulting the codec registry, for every codec id; the body is left
unchanged except that, when it was nil and a new-body function is set,
that function first creates the body from the header. -/
theorem unmarshalBody_empty_spec {α : Type} (reg reg2 : Registry α)
    (m : Msg α) :
    m.UnmarshalBody reg [] = m.UnmarshalBody reg2 []
    ∧ (m.newBodyFunc = none → m.UnmarshalBody reg [] = Except.ok m)
    ∧ (m.body ≠ BodyVal.none → m.UnmarshalBody reg [] = Except.ok m)
    ∧ (∀ f, m.newBodyFunc = some f → m.body = BodyVal.none →
        m.UnmarshalBody reg [] =
          Except.ok { m with body := f m.header }) := by
  refine ⟨rfl, fun h => ?_, fun h => ?_, fun f hf hb => ?_⟩
  · cases hb : m.body <;> simp [Msg.UnmarshalBody, h, hb]
  · cases hb : m.body <;> simp_all [Msg.UnmarshalBody]
  · simp [Msg.UnmarshalBody, hf, hb]

/-- Witness for C10: with body nil and a new-body function installed,
the empty input yields success and the created body. -/
theorem unmarshalBody_empty_spec_witness :
    ({ sampleMsg with
        newBodyFunc := some fun _ => BodyVal.bytes [1, 2] } :
      Msg Nat).UnmarshalBody sampleReg [] =
      Except.ok { sampleMsg with
        newBodyFunc := some fun _ => BodyVal.bytes [1, 2]
        body := BodyVal.bytes [1, 2] } :=
  (unmarshalBody_empty_spec sampleReg sampleReg _).2.2.2
    (fun _ => BodyVal.bytes [1, 2]) rfl rfl

/-- C9: after a successful redial, the session id becomes the new
connection's local address exactly when, just before the redial, the id
still equalled the (old) local address; otherwise the previously
assigned id is kept unchanged.  In both cases the recorded local address
becomes the new connection's. -/
theorem renewSession_id_spec (sess : ClientSess) (a : String) :
    (sess.id = sess.localAddr →
      renewSessionForClient sess (Except.ok a) =
        Except.ok { localAddr := a, id := a })
    ∧ (sess.id ≠ sess.localAddr →
      renewSessionForClient sess (Except.ok a) =
        Except.ok { localAddr := a, id := sess.id }) := by
  constructor
  · intro h
    simp [renewSessionForClient, h.symm]
  · intro h
    have h2 : ¬ (sess.localAddr = sess.id) := fun e => h e.symm
    simp [renewSessionForClient, h2]

/-- Witness for C9: an untouched id (equal to the local address) is
reassigned to the new address; a previously reassigned id is kept. -/
theorem renewSession_id_spec_witness :
    renewSessionForClient { localAddr := "L", id := "L" } (Except.ok "A") =
      Except.ok { localAddr := "A", id := "A" }
    ∧ renewSessionForClient { localAddr := "L", id := "X" } (Except.ok "A") =
      Except.ok { localAddr := "A", id := "X" } :=
  ⟨(renewSession_id_spec { localAddr := "L", id := "L" } "A").1 rfl,
   (renewSession_id_spec { localAddr := "L", id := "X" } "A").2 (by decide)⟩

/-- C7: in the accept task, a failed TLS handshake ends the task with no
session created or registered; whenever a session is registered on a TLS
connection, the successful handshake is the first event of the task, so
registration happens only after the handshake succeeds. -/
theorem acceptConnTask_handshake_spec (isTLS handshakeOk postAcceptOk : Bool) :
    (isTLS = true → handshakeOk = false →
      acceptConnTask isTLS handshakeOk postAcceptOk =
          [AcceptEv.handshake false]
        ∧ AcceptEv.newSess ∉ acceptConnTask isTLS handshakeOk postAcceptOk
        ∧ AcceptEv.register ∉ acceptConnTask isTLS handshakeOk postAcceptOk)
    ∧ (AcceptEv.register ∈ acceptConnTask isTLS handshakeOk postAcceptOk →
        isTLS = true →
        handshakeOk = true
        ∧ (acceptConnTask isTLS handshakeOk postAcceptOk).head? =
            some (AcceptEv.handshake true)) := by
  revert isTLS handshakeOk postAcceptOk
  decide

/-- Witness for C7: on a TLS connection whose handshake fails, no
session is registered. -/
theorem acceptConnTask_handshake_spec_witness :
    AcceptEv.register ∉ acceptConnTask true false true :=
  ((acceptConnTask_handshake_spec true false true).1 rfl rfl).2.2

/-- C6, counterexample: a peer holding one non-quic listener whose
`Close()` reports an error, and no sessions — the aggregate error
returned by `Close` is empty, so the listener's close error does not
appear in it, contrary to the claim. -/
theorem peerClose_drops_nonquic_listener_err :
    peerClose [{ isQuic := false, closeErr := some "lis-close-err" }] [] = []
    ∧ "lis-close-err" ∉
        peerClose [{ isQuic := false, closeErr := some "lis-close-err" }] [] :=
  by decide

/-- Every string in the accumulator survives folding `mergeErr` over a
list. -/
theorem mem_foldl_mergeErr_init {β : Type} (f : β → Option String)
    (xs : List β) (acc : List String) (s : String) (h : s ∈ acc) :
    s ∈ xs.foldl (fun a b => mergeErr a (f b)) acc := by
  induction xs generalizing acc with
  | nil => exact h
  | cons x xs ih =>
    refine ih (mergeErr acc (f x)) ?_
    cases hf : f x <;> simp [mergeErr, h]

/-- A string contributed by some list element appears in the fold of
`mergeErr` over that list. -/
theorem mem_foldl_mergeErr {β : Type} (f : β → Option String)
    (xs : List β) (acc : List String) (s : String) (b : β)
    (hb : b ∈ xs) (hf : f b = some s) :
    s ∈ xs.foldl (fun a b => mergeErr a (f b)) acc := by
  induction xs generalizing acc with
  | nil => cases hb
  | cons x xs ih =>
    rcases List.mem_cons.mp hb with h | h
    · subst h
      refine mem_foldl_mergeErr_init f xs (mergeErr acc (f b)) s ?_
      simp [hf, mergeErr]
    · exact ih _ h

/-- C6 (amended): every non-nil error produced by closing any session,
and every non-nil error produced by closing any quic listener, appears
in the aggregate error returned by `Close`; errors from closing
non-quic listeners are discarded. -/
theorem peerClose_amended_spec (listeners : List Lis)
    (sessCloseErrs : List (Option String)) (s : String)
    (h : some s ∈ sessCloseErrs
      ∨ ∃ l ∈ listeners, l.isQuic = true ∧ l.closeErr = some s) :
    s ∈ peerClose listeners sessCloseErrs := by
  unfold peerClose
  rcases h with h | ⟨l, hl, hq, he⟩
  · refine mem_foldl_mergeErr_init Lis.closeErr _ _ s ?_
    exact mem_foldl_mergeErr (fun e => e) sessCloseErrs [] s (some s) h rfl
  · refine mem_foldl_mergeErr Lis.closeErr _ _ s l ?_ he
    exact List.mem_filter.mpr ⟨hl, by simp [hq]⟩

/-- Witness for C6 (amended): one failing session close and one quic
listener close error both appear in the aggregate. -/
theorem peerClose_amended_spec_witness :
    "sess-err" ∈ peerClose [{ isQuic := true, closeErr := some "quic-err" }]
        [some "sess-err"]
    ∧ "quic-err" ∈ peerClose [{ isQuic := true, closeErr := some "quic-err" }]
        [some "sess-err"] :=
  ⟨peerClose_amended_spec _ _ "sess-err" (Or.inl (by decide)),
   peerClose_amended_spec _ _ "quic-err"
     (Or.inr ⟨{ isQuic := true, closeErr := some "quic-err" },
       by decide, rfl, rfl⟩)⟩

/-- The backoff update in closed form: 5 ms on a zero delay, else the
double, all capped at 1 s. -/
theorem nextTempDelay_eq (d : Nat) :
    nextTempDelay d = min (if d = 0 then 5000000 else d * 2) 1000000000 := by
  show (if (if d = 0 then initTempDelay else d * 2) > maxTempDelay then
      maxTempDelay else (if d = 0 then initTempDelay else d * 2)) = _
  unfold initTempDelay maxTempDelay
  rw [Nat.min_def]
  split_ifs <;> omega

/-- The backoff update always yields a positive delay. -/
theorem nextTempDelay_pos (d : Nat) : 0 < nextTempDelay d := by
  rw [nextTempDelay_eq, Nat.min_def]
  split_ifs <;> omega

/-- The backoff update never exceeds the 1 s cap. -/
theorem nextTempDelay_le (d : Nat) : nextTempDelay d ≤ maxTempDelay := by
  rw [nextTempDelay_eq, Nat.min_def]
  unfold maxTempDelay
  split_ifs <;> omega

/-- On a non-zero delay the update is doubling capped at 1 s. -/
theorem nextTempDelay_of_ne_zero (d : Nat) (h : d ≠ 0) :
    nextTempDelay d = min (d * 2) maxTempDelay := by
  rw [nextTempDelay_eq]
  simp [h, maxTempDelay]

/-- The k-th consecutive backoff delay is at most 5 ms · 2^(k−1). -/
theorem tempDelayAfter_le_pow (k : Nat) :
    tempDelayAfter (k + 1) ≤ initTempDelay * 2 ^ k := by
  induction k with
  | zero => decide
  | succ m ih =>
    have hpos : tempDelayAfter (m + 1) ≠ 0 := by
      have := nextTempDelay_pos (tempDelayAfter m)
      show nextTempDelay (tempDelayAfter m) ≠ 0
      omega
    calc tempDelayAfter (m + 2)
        = min (tempDelayAfter (m + 1) * 2) maxTempDelay :=
          nextTempDelay_of_ne_zero _ hpos
      _ ≤ tempDelayAfter (m + 1) * 2 := Nat.min_le_left _ _
      _ ≤ initTempDelay * 2 ^ m * 2 := Nat.mul_le_mul_right 2 ih
      _ = initTempDelay * 2 ^ (m + 1) := by ring

/-- C4: under consecutive temporary accept errors the first sleep is
5 ms, each later sleep is the double of the previous capped at 1 s, the
delay resets to zero on a successful accept; hence no individual delay
exceeds 1 s and the total delay over k consecutive failures is at most
5 ms · (2^k − 1). -/
theorem accept_backoff_spec :
    tempDelayAfter 1 = 5000000
    ∧ (∀ k, tempDelayAfter (k + 2) =
        min (tempDelayAfter (k + 1) * 2) maxTempDelay)
    ∧ (∀ d, acceptLoopDelay d AcceptOutcome.success = 0)
    ∧ (∀ d, acceptLoopDelay d AcceptOutcome.tempError = nextTempDelay d)
    ∧ (∀ k, tempDelayAfter (k + 1) ≤ 1000000000)
    ∧ (∀ k, totalAcceptDelay k ≤ 5000000 * (2 ^ k - 1)) := by
  refine ⟨by decide, fun k => ?_, fun d => rfl, fun d => rfl, fun k => ?_,
    fun k => ?_⟩
  · exact nextTempDelay_of_ne_zero _
      (Nat.not_eq_zero_of_lt (nextTempDelay_pos (tempDelayAfter k)))
  · exact nextTempDelay_le (tempDelayAfter k)
  · induction k with
    | zero => simp [totalAcceptDelay]
    | succ m ih =>
      have h1 : tempDelayAfter (m + 1) ≤ 5000000 * 2 ^ m :=
        tempDelayAfter_le_pow m
      have h2 : 1 ≤ 2 ^ m := Nat.one_le_two_pow
      have h3 : (2 : Nat) ^ (m + 1) = 2 ^ m * 2 := pow_succ 2 m
      show totalAcceptDelay m + tempDelayAfter (m + 1) ≤
        5000000 * (2 ^ (m + 1) - 1)
      omega

/-- A negative redial counter answers true and never changes. -/
theorem redialNext_neg (r : Int) (h : r < 0) : redialNext r = (true, r) := by
  unfold redialNext
  rw [if_neg (by omega), if_neg (by omega)]

/-- A positive counter answers true and decrements. -/
theorem redialNext_coe_succ (m : Nat) :
    redialNext ((m + 1 : Nat) : Int) = (true, (m : Int)) := by
  unfold redialNext
  rw [if_neg (by omega), if_pos (by omega)]
  congr 1
  push_cast
  ring

/-- From a negative counter, every stream of `next()` answers is all
true. -/
theorem nextCalls_neg (r : Int) (h : r < 0) (k : Nat) :
    nextCalls r k = List.replicate k true := by
  induction k with
  | zero => rfl
  | succ m ih =>
    rw [nextCalls, redialNext_neg r h]
    simp [ih, List.replicate_succ]

/-- From a nonnegative counter n, `next()` answers true exactly n times
and false from then on. -/
theorem nextCalls_coe (n k : Nat) :
    nextCalls (n : Int) k =
      List.replicate (min k n) true ++ List.replicate (k - n) false := by
  induction k generalizing n with
  | zero => simp [nextCalls]
  | succ m ih =>
    cases n with
    | zero =>
      rw [nextCalls]
      have h0 : redialNext ((0 : Nat) : Int) = (false, 0) := rfl
      rw [h0]
      have hm := ih 0
      simp only [Nat.cast_zero] at hm
      simp [hm, List.replicate_succ]
    | succ j =>
      rw [nextCalls, redialNext_coe_succ j]
      simp only [ih j, Nat.succ_min_succ, Nat.succ_sub_succ,
        List.replicate_succ, List.cons_append]

/-- When every dial attempt fails, the redial loop runs the counter down
to zero, making one attempt per `next()`, and ends with the last
attempt's error. -/
theorem redialLoop_all_fail (errs : Nat → String) (n : Nat) :
    ∀ i : Nat,
      redialLoop n ((n : Nat) : Int) (fun j => Except.error (errs j)) i
          (Except.error (errs (i - 1))) =
        (i + n, Except.error (errs (i + n - 1))) := by
  induction n with
  | zero => intro i; simp [redialLoop]
  | succ m ih =>
    intro i
    rw [redialLoop, redialNext_coe_succ m]
    have h2 : errs i = errs (i + 1 - 1) := by simp
    calc redialLoop m ((m : Nat) : Int) (fun j => Except.error (errs j))
          (i + 1) (Except.error (errs i))
        = redialLoop m ((m : Nat) : Int) (fun j => Except.error (errs j))
            (i + 1) (Except.error (errs (i + 1 - 1))) := by rw [← h2]
      _ = (i + 1 + m, Except.error (errs (i + 1 + m - 1))) := ih (i + 1)
      _ = (i + (m + 1), Except.error (errs (i + (m + 1) - 1))) := by
          have e1 : i + 1 + m = i + (m + 1) := by omega
          rw [e1]

/-- C5: a negative `RedialTimes` makes `next()` answer true on every
query; zero makes it answer false always; a nonnegative counter n
answers true exactly n times; hence when every dial attempt fails, the
client makes the initial dial plus exactly n redials and returns the
dial-failed error carrying the last dial error as reason. -/
theorem redialTimes_spec :
    (∀ r : Int, r < 0 →
      redialNext r = (true, r)
      ∧ ∀ k, nextCalls r k = List.replicate k true)
    ∧ redialNext 0 = (false, 0)
    ∧ (∀ n k : Nat, nextCalls (n : Int) k =
        List.replicate (min k n) true ++ List.replicate (k - n) false)
    ∧ (∀ (n : Nat) (errs : Nat → String),
        newSessionForClient n (n : Int) (fun i => Except.error (errs i)) =
          (n + 1, Except.error (Rerr.dialFailed (errs n)))) := by
  refine ⟨fun r h => ⟨redialNext_neg r h, nextCalls_neg r h⟩, rfl,
    nextCalls_coe, fun n errs => ?_⟩
  show (match redialLoop n ((n : Nat) : Int) (fun i => Except.error (errs i))
        1 (Except.error (errs 0)) with
    | (i, Except.ok c) => (i, Except.ok c)
    | (i, Except.error e2) => (i, Except.error (Rerr.dialFailed e2))) =
      (n + 1, Except.error (Rerr.dialFailed (errs n)))
  have h1 : errs 0 = errs (1 - 1) := rfl
  rw [h1, redialLoop_all_fail errs n 1]
  have h2 : 1 + n - 1 = n := by omega
  rw [h2]
  show (1 + n, Except.error (Rerr.dialFailed (errs n))) =
    (n + 1, Except.error (Rerr.dialFailed (errs n)))
  rw [Nat.add_comm 1 n]

/-- Witness for C5 at counter −1 (unbounded) and at counter 2 with every
dial failing (three attempts, dial-failed with the last error). -/
theorem redialTimes_spec_witness :
    redialNext (-1) = (true, -1)
    ∧ nextCalls (-1) 3 = List.replicate 3 true
    ∧ newSessionForClient 2 ((2 : Nat) : Int)
        (fun i => Except.error (toString i)) =
      (3, Except.error (Rerr.dialFailed "2")) :=
  ⟨(redialTimes_spec.1 (-1) (by decide)).1,
   (redialTimes_spec.1 (-1) (by decide)).2 3,
   redialTimes_spec.2.2.2 2 (fun i => toString i)⟩

end Teleport
